import Mathlib

/-!
# Verification of the ChainPulse markdown renderer core

This file gives a shallow embedding, over `List Char`, of the two functions
`parseMarkdown` and `sanitizeHTML` from `src/components/MarkdownRenderer.tsx`.

Each JavaScript `String.replace(regex, repl)` call with a global regex is
modelled by a left-to-right scanner (`replaceScanS`): at every position of the
original string it attempts the (hand-compiled, deterministic) matcher for
that concrete regex; on success it emits the replacement and skips the
matched characters, on failure it emits the current character and moves one
position to the right.  This is exactly the semantics of a global regex
replace for regexes that cannot match the empty string, which holds for every
regex in the source.  Matching is always performed against the original
string (replacements are never rescanned within a pass), as in JavaScript.

Regexes with the `m` flag anchored by `^...$` (the heading and list-item
rules) consume entire lines, so they are modelled by a per-line map
(`mapLines`).  The `i` flag is modelled with `Char.toLower` comparisons.
`\w` is `[A-Za-z0-9_]`, `\s` is the ASCII whitespace class, and `.` does not
match a newline.
-/

namespace ChainPulse

/-- ASCII word character, the JavaScript `\w` class. -/
def isWordChar (c : Char) : Bool := c.isAlphanum || c == '_'

/-- ASCII whitespace, the JavaScript `\s` class (space, tab, LF, VT, FF, CR). -/
def isSpaceChar (c : Char) : Bool :=
  c == ' ' || c == '\t' || c == '\n' || c == '\r' ||
  c == Char.ofNat 11 || c == Char.ofNat 12

/-- The single-quote character. -/
def sq : Char := Char.ofNat 39

/-- The backtick character. -/
def btick : Char := Char.ofNat 96

/-- `q` is one of the two quote characters of the JavaScript class `["']`. -/
def isQuote (q : Char) : Bool := q == '"' || q == sq

/-- Length of the maximal prefix of `l` all of whose characters satisfy `p`. -/
def countWhile (p : Char → Bool) : List Char → Nat
  | [] => 0
  | c :: cs => if p c then countWhile p cs + 1 else 0

/-- `pat` is literally a prefix of `l`. -/
def startsWithL : List Char → List Char → Bool
  | [], _ => true
  | _ :: _, [] => false
  | p :: ps, c :: cs => (p == c) && startsWithL ps cs

/-- `pat` (given in lower case) is a prefix of `l` up to ASCII case. -/
def startsWithCI : List Char → List Char → Bool
  | [], _ => true
  | _ :: _, [] => false
  | p :: ps, c :: cs => (c.toLower == p) && startsWithCI ps cs

/-- `pat` and `l` agree on the first `min pat.length l.length` characters.
When this is `false`, no extension of `l` to the right can start with
`pat`. -/
def agreeMin : List Char → List Char → Bool
  | [], _ => true
  | _ :: _, [] => true
  | p :: ps, c :: cs => (p == c) && agreeMin ps cs

/-- One global-replace pass over the original string.  `tryM l` inspects the
current suffix `l` and, if the regex matches there, returns the emitted
replacement together with the total length `m ≥ 1` of the matched text.  The
second argument counts characters of an earlier match that remain to be
skipped. -/
def replaceScanS (tryM : List Char → Option (List Char × Nat)) :
    List Char → Nat → List Char
  | [], _ => []
  | _ :: cs, skip + 1 => replaceScanS tryM cs skip
  | c :: cs, 0 =>
    match tryM (c :: cs) with
    | some (r, m) => r ++ replaceScanS tryM cs (m - 1)
    | none => c :: replaceScanS tryM cs 0

/-- A whole pass, starting with nothing to skip. -/
def applyPass (tryM : List Char → Option (List Char × Nat)) (l : List Char) :
    List Char :=
  replaceScanS tryM l 0

/-- Split at newline characters (the lines of the string, `m`-flag style). -/
def splitNl : List Char → List (List Char)
  | [] => [[]]
  | c :: cs =>
    let r := splitNl cs
    if c = '\n' then [] :: r
    else (c :: r.headD []) :: r.tail

/-- Rejoin lines with newlines; inverse of `splitNl` on newline-free lines. -/
def joinNl : List (List Char) → List Char
  | [] => []
  | [x] => x
  | x :: xs => x ++ '\n' :: joinNl xs

/-- Model of a `/^...$/gm` replace: rewrite every line independently. -/
def mapLines (f : List Char → List Char) (l : List Char) : List Char :=
  joinNl ((splitNl l).map f)

/-! ## The parser `parseMarkdown` (lines 35–76 of the source) -/

def strongOpen : List Char := "<strong class=\"font-bold text-foreground\">".data
def strongClose : List Char := "</strong>".data
def emOpen : List Char := "<em class=\"italic text-muted-foreground\">".data
def emClose : List Char := "</em>".data
def codeOpen : List Char :=
  "<code class=\"px-2 py-1 rounded-md bg-muted text-sm font-mono text-primary\">".data
def codeClose : List Char := "</code>".data
def h3Open : List Char :=
  "<h3 class=\"text-lg font-semibold text-foreground mb-3 mt-6 first:mt-0\">".data
def h2Open : List Char :=
  "<h2 class=\"text-xl font-bold text-foreground mb-4 mt-8 first:mt-0\">".data
def h1Open : List Char :=
  "<h1 class=\"text-2xl font-bold gradient-text mb-6 mt-10 first:mt-0\">".data
def aOpen1 : List Char := "<a href=\"".data
def aOpen2 : List Char :=
  "\" class=\"text-primary hover:text-primary/80 underline transition-colors\" target=\"_blank\" rel=\"noopener noreferrer\">".data
def aClose : List Char := "</a>".data
def liOpen : List Char :=
  "<li class=\"ml-4 mb-2 text-muted-foreground\"><span class=\"inline-block w-2 h-2 bg-primary rounded-full mr-3 mt-2\"></span>".data
def liClose : List Char := "</li>".data
def ulOpen : List Char := "<ul class=\"space-y-1 mb-4\">".data
def ulClose : List Char := "</ul>".data
def pOpen : List Char := "<p class=\"text-muted-foreground mb-4\">".data
def pClose : List Char := "</p>".data

/-- Position of the first adjacent pair of asterisks, provided only
non-newline characters precede it (the lazy `(.*?)` before `\*\*`). -/
def findStars2 : List Char → Option Nat
  | '*' :: '*' :: _ => some 0
  | c :: cs => if c = '\n' then none else (findStars2 cs).map (· + 1)
  | [] => none

/-- `/\*\*(.*?)\*\*/g` with replacement
`<strong class="font-bold text-foreground">$1</strong>`. -/
def tryBold (l : List Char) : Option (List Char × Nat) :=
  if startsWithL ('*' :: '*' :: []) l then
    match findStars2 (l.drop 2) with
    | some k => some (strongOpen ++ (l.drop 2).take k ++ strongClose, k + 4)
    | none => none
  else none

/-- After an opening `*`: the body `([^*]+)` up to the closing `*`, subject to
the trailing `(?!\*)`.  Returns the body length. -/
def italicBody (l : List Char) : Option Nat :=
  let n := countWhile (fun c => !(c == '*')) l
  if n = 0 then none
  else
    match l.drop n with
    | '*' :: '*' :: _ => none
    | '*' :: _ => some n
    | _ => none

/-- `/(?<!\*)\*(?!\*)([^*]+)\*(?!\*)/g` with replacement
`<em class="italic text-muted-foreground">$1</em>`.  The first argument is
the character preceding the current position in the original string (for the
lookbehind); the `Nat` counts characters of an earlier match still to be
skipped. -/
def italicScanS : Option Char → List Char → Nat → List Char
  | _, [], _ => []
  | _, c :: cs, skip + 1 => italicScanS (some c) cs skip
  | prev, c :: cs, 0 =>
    if c == '*' && !(prev == some '*') then
      match italicBody cs with
      | some n =>
        emOpen ++ cs.take n ++ emClose ++ italicScanS (some '*') cs (n + 1)
      | none => c :: italicScanS (some c) cs 0
    else c :: italicScanS (some c) cs 0

/-- ``/`([^`]+)`/g`` with replacement `<code class="...">$1</code>`. -/
def tryCode (l : List Char) : Option (List Char × Nat) :=
  if startsWithL [btick] l then
    let rest := l.drop 1
    let n := countWhile (fun x => !(x == btick)) rest
    if n = 0 then none
    else if startsWithL [btick] (rest.drop n) then
      some (codeOpen ++ rest.take n ++ codeClose, n + 2)
    else none
  else none

/-- `/^### (.*$)/gim` acting on one line. -/
def h3Line (line : List Char) : List Char :=
  if startsWithL "### ".data line then h3Open ++ line.drop 4 ++ "</h3>".data
  else line

/-- `/^## (.*$)/gim` acting on one line. -/
def h2Line (line : List Char) : List Char :=
  if startsWithL "## ".data line then h2Open ++ line.drop 3 ++ "</h2>".data
  else line

/-- `/^# (.*$)/gim` acting on one line. -/
def h1Line (line : List Char) : List Char :=
  if startsWithL "# ".data line then h1Open ++ line.drop 2 ++ "</h1>".data
  else line

/-- `/\[([^\]]+)\]\(([^)]+)\)/g` with replacement
`<a href="$2" class="..." target="_blank" rel="noopener noreferrer">$1</a>`. -/
def tryLink (l : List Char) : Option (List Char × Nat) :=
  if startsWithL ['['] l then
    let rest := l.drop 1
    let n := countWhile (fun x => !(x == ']')) rest
    if n = 0 then none
    else if startsWithL (']' :: '(' :: []) (rest.drop n) then
      let rest2 := (rest.drop n).drop 2
      let m := countWhile (fun x => !(x == ')')) rest2
      if m = 0 then none
      else if startsWithL [')'] (rest2.drop m) then
        some (aOpen1 ++ rest2.take m ++ aOpen2 ++ rest.take n ++ aClose,
          n + m + 4)
      else none
    else none
  else none

/-- `/^- (.*$)/gim` acting on one line. -/
def liLine (line : List Char) : List Char :=
  if startsWithL "- ".data line then liOpen ++ line.drop 2 ++ liClose
  else line

/-- Position of the first occurrence of `</li>` reachable without crossing a
newline (the lazy `.*?` before `<\/li>`). -/
def findClose : List Char → Option Nat
  | [] => none
  | c :: cs =>
    if startsWithL liClose (c :: cs) then some 0
    else if c = '\n' then none
    else (findClose cs).map (· + 1)

/-- The greedy `(<li.*?<\/li>\s*)+`: total length of the maximal chain of
`<li...</li>` blocks each followed by its greedy `\s*` run.  The `Nat`
argument counts characters already consumed (to keep the recursion
structural). -/
def ulChainS : List Char → Nat → Option Nat
  | [], _ => none
  | _ :: cs, skip + 1 => ulChainS cs skip
  | c :: cs, 0 =>
    if startsWithL "<li".data (c :: cs) then
      match findClose (cs.drop 2) with
      | some k =>
        let m := 3 + k + 5
        let sp := countWhile isSpaceChar (cs.drop (m - 1))
        match ulChainS cs (m - 1 + sp) with
        | some m2 => some (m + sp + m2)
        | none => some (m + sp)
      | none => none
    else none

/-- `/(<li.*?<\/li>\s*)+/g` with replacement `<ul class="space-y-1 mb-4">$&</ul>`. -/
def tryUl (l : List Char) : Option (List Char × Nat) :=
  match ulChainS l 0 with
  | some m => some (ulOpen ++ l.take m ++ ulClose, m)
  | none => none

/-- `/\n\n/g` with replacement `</p><p class="text-muted-foreground mb-4">`. -/
def tryPara (l : List Char) : Option (List Char × Nat) :=
  if startsWithL ('\n' :: '\n' :: []) l then some (pClose ++ pOpen, 2) else none

/-- `/\n/g` with replacement `<br>`. -/
def tryBr (l : List Char) : Option (List Char × Nat) :=
  if startsWithL ['\n'] l then some ("<br>".data, 1) else none

/-- Final wrapping step: if the text does not already start with `<h`, `<ul`
or `<p`, wrap it in a paragraph. -/
def wrapP (l : List Char) : List Char :=
  if !(startsWithL "<h".data l) && !(startsWithL "<ul".data l) &&
      !(startsWithL "<p".data l) then
    pOpen ++ l ++ pClose
  else l

/-- The parser of `MarkdownRenderer.tsx` (source lines 35–76): the ordered
chain of substitution passes. -/
def parseMarkdown (s : String) : String :=
  let t := applyPass tryBold s.data
  let t := italicScanS none t 0
  let t := applyPass tryCode t
  let t := mapLines h3Line t
  let t := mapLines h2Line t
  let t := mapLines h1Line t
  let t := applyPass tryLink t
  let t := mapLines liLine t
  let t := applyPass tryUl t
  let t := applyPass tryPara t
  let t := applyPass tryBr t
  String.mk (wrapP t)

/-! ## The sanitizer `sanitizeHTML` (lines 95–126 of the source) -/

/-- The loop `(?:(?!<\/script>)<[^<]*)*<\/script>`: length consumed up to and
including the closing `</script>`, starting from a position that is either
`<` or the end.  The `Nat` argument counts characters already consumed. -/
def scriptLoopS : List Char → Nat → Option Nat
  | [], _ => none
  | _ :: cs, skip + 1 => scriptLoopS cs skip
  | c :: cs, 0 =>
    if startsWithCI "</script>".data (c :: cs) then some 9
    else if c = '<' then
      let n := countWhile (fun x => !(x == '<')) cs
      match scriptLoopS cs n with
      | some m => some (1 + n + m)
      | none => none
    else none

/-- `/<script\b[^<]*(?:(?!<\/script>)<[^<]*)*<\/script>/gi` with empty
replacement. -/
def tryScript (l : List Char) : Option (List Char × Nat) :=
  if startsWithCI "<script".data l then
    match l.drop 7 with
    | d :: _ =>
      if isWordChar d then none
      else
        let n := countWhile (fun x => !(x == '<')) (l.drop 7)
        match scriptLoopS (l.drop (7 + n)) 0 with
        | some m => some ([], 7 + n + m)
        | none => none
    | [] => none
  else none

/-- `/\son\w+\s*=\s*["'][^"']*["']/gi` with empty replacement. -/
def tryOnQuoted (l : List Char) : Option (List Char × Nat) :=
  match l with
  | c :: cs =>
    if isSpaceChar c && startsWithCI "on".data cs then
      let r1 := cs.drop 2
      let w := countWhile isWordChar r1
      if w = 0 then none
      else
        let r2 := r1.drop w
        let s1 := countWhile isSpaceChar r2
        match r2.drop s1 with
        | '=' :: r3 =>
          let s2 := countWhile isSpaceChar r3
          match r3.drop s2 with
          | q :: r4 =>
            if isQuote q then
              let b := countWhile (fun x => !(isQuote x)) r4
              match r4.drop b with
              | q2 :: _ =>
                if isQuote q2 then
                  some ([], 1 + 2 + w + s1 + 1 + s2 + 1 + b + 1)
                else none
              | [] => none
            else none
          | [] => none
        | _ => none
    else none
  | [] => none

/-- `/\son\w+\s*=\s*[^\s>]*/gi` with empty replacement. -/
def tryOnBare (l : List Char) : Option (List Char × Nat) :=
  match l with
  | c :: cs =>
    if isSpaceChar c && startsWithCI "on".data cs then
      let r1 := cs.drop 2
      let w := countWhile isWordChar r1
      if w = 0 then none
      else
        let r2 := r1.drop w
        let s1 := countWhile isSpaceChar r2
        match r2.drop s1 with
        | '=' :: r3 =>
          let s2 := countWhile isSpaceChar r3
          let b := countWhile (fun x => !(isSpaceChar x) && !(x == '>')) (r3.drop s2)
          some ([], 1 + 2 + w + s1 + 1 + s2 + b)
        | _ => none
    else none
  | [] => none

/-- Shared shape of the three URI-scheme rewrites: `attr` then `\s*=\s*` then
a quote, the literal `scheme`, `[^"']*` and a closing quote.  Returns the
matched length. -/
def uriMatchLen (attr scheme : List Char) (l : List Char) : Option Nat :=
  if startsWithCI attr l then
    let r1 := l.drop attr.length
    let s1 := countWhile isSpaceChar r1
    match r1.drop s1 with
    | '=' :: r2 =>
      let s2 := countWhile isSpaceChar r2
      match r2.drop s2 with
      | q :: r3 =>
        if isQuote q && startsWithCI scheme r3 then
          let b := countWhile (fun x => !(isQuote x)) (r3.drop scheme.length)
          match (r3.drop scheme.length).drop b with
          | q2 :: _ =>
            if isQuote q2 then
              some (attr.length + s1 + 1 + s2 + 1 + scheme.length + b + 1)
            else none
          | [] => none
        else none
      | [] => none
    | _ => none
  else none

/-- `/href\s*=\s*["']javascript:[^"']*["']/gi` with replacement `href="#"`. -/
def tryHrefJs (l : List Char) : Option (List Char × Nat) :=
  (uriMatchLen "href".data "javascript:".data l).map
    (fun m => ("href=\"#\"".data, m))

/-- `/href\s*=\s*["']data:[^"']*["']/gi` with replacement `href="#"`. -/
def tryHrefData (l : List Char) : Option (List Char × Nat) :=
  (uriMatchLen "href".data "data:".data l).map
    (fun m => ("href=\"#\"".data, m))

/-- `/src\s*=\s*["']data:[^"']*["']/gi` with replacement `src=""`. -/
def trySrcData (l : List Char) : Option (List Char × Nat) :=
  (uriMatchLen "src".data "data:".data l).map
    (fun m => ("src=\"\"".data, m))

/-- `/<(iframe|object|embed)[^>]*>/gi` with empty replacement. -/
def tryIframe (l : List Char) : Option (List Char × Nat) :=
  match l with
  | '<' :: rest =>
    let k : Option Nat :=
      if startsWithCI "iframe".data rest then some 6
      else if startsWithCI "object".data rest then some 6
      else if startsWithCI "embed".data rest then some 5
      else none
    match k with
    | some k =>
      let b := countWhile (fun x => !(x == '>')) (rest.drop k)
      match (rest.drop k).drop b with
      | '>' :: _ => some ([], 1 + k + b + 1)
      | _ => none
    | none => none
  | _ => none

/-- The fixed allow-list of safe tags (source line 114). -/
def allowedTags : List String :=
  ["h1", "h2", "h3", "p", "strong", "em", "code", "a", "ul", "li", "br", "span"]

def allowedL : List (List Char) := allowedTags.map String.data

/-- `/<\/?(\w+)(\s[^>]*)?>/g` with the callback that keeps the match when the
lower-cased tag name is allow-listed and deletes it otherwise. -/
def tryTag (l : List Char) : Option (List Char × Nat) :=
  match l with
  | '<' :: rest =>
    let slash : Nat := match rest with | '/' :: _ => 1 | _ => 0
    let r1 := rest.drop slash
    let w := countWhile isWordChar r1
    if w = 0 then none
    else
      let tag := (r1.take w).map Char.toLower
      match r1.drop w with
      | '>' :: _ =>
        let m := 1 + slash + w + 1
        some (if allowedL.contains tag then l.take m else [], m)
      | d :: r2 =>
        if isSpaceChar d then
          let b := countWhile (fun x => !(x == '>')) r2
          match r2.drop b with
          | '>' :: _ =>
            let m := 1 + slash + w + 1 + b + 1
            some (if allowedL.contains tag then l.take m else [], m)
          | _ => none
        else none
      | [] => none
  | _ => none

/-- The sanitizer of `MarkdownRenderer.tsx` (source lines 95–126): the ordered
chain of removal passes followed by the allow-list filter. -/
def sanitizeHTML (s : String) : String :=
  let t := applyPass tryScript s.data
  let t := applyPass tryOnQuoted t
  let t := applyPass tryOnBare t
  let t := applyPass tryHrefJs t
  let t := applyPass tryHrefData t
  let t := applyPass trySrcData t
  let t := applyPass tryIframe t
  let t := applyPass tryTag t
  String.mk t

/-- Number of positions of `l` at which `pat` occurs. -/
def countSub (pat : List Char) : List Char → Nat
  | [] => 0
  | c :: cs =>
    (if startsWithL pat (c :: cs) then 1 else 0) + countSub pat cs

/-- `pat` occurs somewhere in `l`. -/
def containsSub (pat : List Char) : List Char → Bool
  | [] => false
  | c :: cs => startsWithL pat (c :: cs) || containsSub pat cs

/-! ## A structured family of list inputs, for the general list-grouping law -/

/-- A lower-case ASCII letter. -/
def isLowerB (c : Char) : Bool := 97 ≤ c.toNat && c.toNat ≤ 122

/-- The markdown list-item line `- c`. -/
def mdLine (c : Char) : List Char := '-' :: ' ' :: [c]

/-- The markdown source `- c1\n- c2\n...\n- ck`. -/
def mdListInput (items : List Char) : List Char := joinNl (items.map mdLine)

/-- The `<li>` element the list-item rule produces for the line `- c`. -/
def liBlock (c : Char) : List Char := liOpen ++ c :: liClose

/-- The `<li>` elements joined by newlines, as after the list-item pass. -/
def ulBody (items : List Char) : List Char := joinNl (items.map liBlock)

/-- Join pieces with `<br>`, as the final newline pass leaves them. -/
def joinBr : List (List Char) → List Char
  | [] => []
  | [x] => x
  | x :: xs => x ++ "<br>".data ++ joinBr xs

/-- No suffix of `l` agrees with `</li>` on their common length, and `l` has
no newline: then `l` contributes no (even partial) match of `</li>` in any
right context. -/
def closeSafe : List Char → Bool
  | [] => true
  | c :: cs => !(agreeMin liClose (c :: cs)) && !(c == '\n') && closeSafe cs

/-- The input that defeats the sanitizer: it contains no dangerous substring
itself, but the allow-list pass deletes the two inner `<b>` tag markers and
thereby reassembles a complete script element in the output. -/
def splitScriptInput : String := "<scr<b>ipt>alert(1)</scr<b>ipt>"

end ChainPulse

namespace ChainPulse

set_option maxRecDepth 40000

/-! ### Generic lemmas about the scanners -/

theorem lower_ne {c d : Char} (h : isLowerB c = true) (hd : isLowerB d = false) :
    c ≠ d := by
  intro he
  subst he
  rw [h] at hd
  cases hd

theorem lower_beq_false {c d : Char} (h : isLowerB c = true)
    (hd : isLowerB d = false) : (c == d) = false :=
  beq_eq_false_iff_ne.mpr (lower_ne h hd)

theorem lower_beq_false_rev {c d : Char} (h : isLowerB c = true)
    (hd : isLowerB d = false) : (d == c) = false :=
  beq_eq_false_iff_ne.mpr (lower_ne h hd).symm

theorem replaceScanS_skip (tryM : List Char → Option (List Char × Nat)) :
    ∀ (l : List Char) (k : Nat),
      replaceScanS tryM l k = replaceScanS tryM (l.drop k) 0 := by
  intro l
  induction l with
  | nil => intro k; cases k <;> rfl
  | cons c cs ih =>
    intro k
    cases k with
    | zero => rfl
    | succ k => simpa [replaceScanS] using ih k

theorem replaceScanS_append (tryM : List Char → Option (List Char × Nat))
    (trig : Char → Bool)
    (htry : ∀ c cs, trig c = false → tryM (c :: cs) = none) :
    ∀ (a t : List Char), (∀ c ∈ a, trig c = false) →
      replaceScanS tryM (a ++ t) 0 = a ++ replaceScanS tryM t 0 := by
  intro a
  induction a with
  | nil => intro t _; rfl
  | cons c cs ih =>
    intro t ha
    have h := htry c (cs ++ t) (ha c (List.mem_cons_self c cs))
    simp only [List.cons_append, replaceScanS, List.append_eq, h]
    rw [ih t (fun x hx => ha x (List.mem_cons_of_mem c hx))]

theorem applyPass_id (tryM : List Char → Option (List Char × Nat))
    (trig : Char → Bool)
    (htry : ∀ c cs, trig c = false → tryM (c :: cs) = none)
    (l : List Char) (hl : ∀ c ∈ l, trig c = false) :
    applyPass tryM l = l := by
  have h := replaceScanS_append tryM trig htry l [] hl
  simpa [applyPass, replaceScanS] using h

theorem applyPass_full_match (tryM : List Char → Option (List Char × Nat))
    (l r : List Char) (h : tryM l = some (r, l.length)) (hne : l ≠ []) :
    applyPass tryM l = r := by
  match l, hne with
  | c :: cs, _ =>
    simp only [applyPass, replaceScanS, h]
    rw [replaceScanS_skip]
    have hd : cs.drop ((c :: cs).length - 1) = [] := by
      simp [List.drop_length]
    rw [hd]
    simp [replaceScanS]

theorem italicScanS_id :
    ∀ (l : List Char) (prev : Option Char), (∀ c ∈ l, (c == '*') = false) →
      italicScanS prev l 0 = l := by
  intro l
  induction l with
  | nil => intro prev _; rfl
  | cons c cs ih =>
    intro prev hl
    have hc := hl c (List.mem_cons_self c cs)
    simp only [italicScanS, hc, Bool.false_and, Bool.false_eq_true, if_false]
    rw [ih (some c) (fun x hx => hl x (List.mem_cons_of_mem c hx))]

/-! ### Lines: `splitNl` and `joinNl` -/

theorem splitNl_no_nl : ∀ (l : List Char), (∀ c ∈ l, c ≠ '\n') →
    splitNl l = [l] := by
  intro l
  induction l with
  | nil => intro _; rfl
  | cons c cs ih =>
    intro h
    have hc : ¬(c = '\n') := h c (List.mem_cons_self c cs)
    simp [splitNl, hc, ih (fun x hx => h x (List.mem_cons_of_mem c hx))]

theorem splitNl_append_nl : ∀ (x t : List Char), (∀ c ∈ x, c ≠ '\n') →
    splitNl (x ++ '\n' :: t) = x :: splitNl t := by
  intro x
  induction x with
  | nil => intro t _; simp [splitNl]
  | cons c cs ih =>
    intro t h
    have hc : ¬(c = '\n') := h c (List.mem_cons_self c cs)
    simp [splitNl, hc, ih t (fun y hy => h y (List.mem_cons_of_mem c hy))]

theorem splitNl_joinNl : ∀ (ls : List (List Char)), ls ≠ [] →
    (∀ x ∈ ls, ∀ c ∈ x, c ≠ '\n') → splitNl (joinNl ls) = ls := by
  intro ls
  induction ls with
  | nil => intro h _; exact absurd rfl h
  | cons x xs ih =>
    intro _ h
    cases xs with
    | nil => simp [joinNl, splitNl_no_nl x (h x (by simp))]
    | cons y ys =>
      rw [show joinNl (x :: y :: ys) = x ++ '\n' :: joinNl (y :: ys) from rfl,
        splitNl_append_nl x _ (h x (by simp)),
        ih (by simp) (fun z hz => h z (List.mem_cons_of_mem x hz))]

theorem mem_joinNl : ∀ (ls : List (List Char)) (c : Char), c ∈ joinNl ls →
    c = '\n' ∨ ∃ x ∈ ls, c ∈ x := by
  intro ls
  induction ls with
  | nil => intro c h; simp [joinNl] at h
  | cons x xs ih =>
    intro c h
    cases xs with
    | nil =>
      right
      exact ⟨x, by simp, by simpa [joinNl] using h⟩
    | cons y ys =>
      rw [show joinNl (x :: y :: ys) = x ++ '\n' :: joinNl (y :: ys) from rfl] at h
      rcases List.mem_append.mp h with h1 | h2
      · right; exact ⟨x, by simp, h1⟩
      · rcases List.mem_cons.mp h2 with h3 | h4
        · left; exact h3
        · rcases ih c h4 with h5 | ⟨z, hz, hcz⟩
          · left; exact h5
          · right; exact ⟨z, by simp [hz], hcz⟩

/-! ### Prefix agreement and the lazy search for the closing tag -/

theorem beq_false_comm {a b : Char} (h : (a == b) = false) : (b == a) = false :=
  beq_eq_false_iff_ne.mpr (beq_eq_false_iff_ne.mp h).symm

theorem startsWithL_self_append : ∀ (p t : List Char),
    startsWithL p (p ++ t) = true := by
  intro p
  induction p with
  | nil => intro t; rfl
  | cons c cs ih => intro t; simp [startsWithL, ih]

theorem startsWithL_cons_false {p c : Char} {ps cs : List Char}
    (h : (p == c) = false) : startsWithL (p :: ps) (c :: cs) = false := by
  simp [startsWithL, h]

theorem agreeMin_of_startsWithL : ∀ (p l : List Char),
    startsWithL p l = true → agreeMin p l = true := by
  intro p
  induction p with
  | nil => intro l _; rfl
  | cons c cs ih =>
    intro l h
    cases l with
    | nil => cases h
    | cons d ds =>
      simp only [startsWithL, Bool.and_eq_true] at h
      simp [agreeMin, h.1, ih ds h.2]

theorem agreeMin_false_append : ∀ (l p : List Char), agreeMin p l = false →
    ∀ (t : List Char), agreeMin p (l ++ t) = false := by
  intro l
  induction l with
  | nil =>
    intro p h t
    exact absurd h (by cases p <;> simp [agreeMin])
  | cons c cs ih =>
    intro p h t
    cases p with
    | nil => simp [agreeMin] at h
    | cons q qs =>
      simp only [agreeMin, Bool.and_eq_false_iff] at h
      rcases h with h1 | h2
      · simp [List.cons_append, agreeMin, h1]
      · simp [List.cons_append, agreeMin, ih qs h2]

theorem startsWithL_false_of_agreeMin {p l : List Char}
    (h : agreeMin p l = false) (t : List Char) :
    startsWithL p (l ++ t) = false := by
  cases hs : startsWithL p (l ++ t) with
  | false => rfl
  | true =>
    have h2 := agreeMin_of_startsWithL p (l ++ t) hs
    rw [agreeMin_false_append l p h t] at h2
    cases h2

theorem closeSafe_head {c : Char} {cs : List Char}
    (h : closeSafe (c :: cs) = true) :
    agreeMin liClose (c :: cs) = false ∧ ¬(c = '\n') ∧ closeSafe cs = true := by
  have h' := h
  simp [closeSafe] at h'
  exact ⟨h'.1.1, h'.1.2, h'.2⟩

theorem closeSafe_append {a b : List Char} (ha : closeSafe a = true)
    (hb : closeSafe b = true) : closeSafe (a ++ b) = true := by
  induction a with
  | nil => simpa using hb
  | cons c cs ih =>
    obtain ⟨h1, h2, h3⟩ := closeSafe_head ha
    have h4 : agreeMin liClose (c :: (cs ++ b)) = false := by
      have := agreeMin_false_append (c :: cs) liClose h1 b
      simpa using this
    simp [closeSafe, h4, h2, ih h3]

theorem findClose_append : ∀ (a : List Char), closeSafe a = true →
    ∀ (t : List Char), findClose (a ++ (liClose ++ t)) = some a.length := by
  intro a
  induction a with
  | nil =>
    intro _ t
    have h : startsWithL liClose ('<' :: '/' :: 'l' :: 'i' :: '>' :: t) = true :=
      startsWithL_self_append liClose t
    show findClose ('<' :: '/' :: 'l' :: 'i' :: '>' :: t) = some 0
    simp [findClose, h]
  | cons c cs ih =>
    intro hsafe t
    obtain ⟨h1, h2, h3⟩ := closeSafe_head hsafe
    have hsw : startsWithL liClose ((c :: cs) ++ (liClose ++ t)) = false :=
      startsWithL_false_of_agreeMin h1 (liClose ++ t)
    simp only [List.cons_append] at hsw
    simp [findClose, hsw, h2, ih h3 t]

theorem ulChainS_skip :
    ∀ (l : List Char) (k : Nat), ulChainS l k = ulChainS (l.drop k) 0 := by
  intro l
  induction l with
  | nil => intro k; cases k <;> rfl
  | cons c cs ih =>
    intro k
    cases k with
    | zero => rfl
    | succ k => simpa [ulChainS] using ih k

/-! ### Head-trigger lemmas for the scanner matchers -/

theorem tryBold_none {c : Char} {cs : List Char} (h : (c == '*') = false) :
    tryBold (c :: cs) = none := by
  simp [tryBold, startsWithL_cons_false (beq_false_comm h)]

theorem tryCode_none {c : Char} {cs : List Char} (h : (c == btick) = false) :
    tryCode (c :: cs) = none := by
  simp [tryCode, startsWithL_cons_false (beq_false_comm h)]

theorem tryLink_none {c : Char} {cs : List Char} (h : (c == '[') = false) :
    tryLink (c :: cs) = none := by
  simp [tryLink, startsWithL_cons_false (beq_false_comm h)]

theorem tryPara_none {c : Char} {cs : List Char} (h : (c == '\n') = false) :
    tryPara (c :: cs) = none := by
  simp [tryPara, startsWithL_cons_false (beq_false_comm h)]

theorem tryBr_none {c : Char} {cs : List Char} (h : (c == '\n') = false) :
    tryBr (c :: cs) = none := by
  simp [tryBr, startsWithL_cons_false (beq_false_comm h)]

theorem tryUl_none {c : Char} {cs : List Char} (h : (c == '<') = false) :
    tryUl (c :: cs) = none := by
  have h2 : startsWithL "<li".data (c :: cs) = false := by
    rw [show ("<li".data) = '<' :: 'l' :: 'i' :: [] from rfl]
    exact startsWithL_cons_false (beq_false_comm h)
  simp [tryUl, ulChainS, h2]

/-! ### Character classes of the structured list input -/

theorem mem_mdListInput {x : Char} {items : List Char}
    (hx : x ∈ mdListInput items) :
    x = '-' ∨ x = ' ' ∨ x = '\n' ∨ x ∈ items := by
  rcases mem_joinNl _ x hx with h | ⟨p, hp, hxp⟩
  · right; right; left; exact h
  · rcases List.mem_map.mp hp with ⟨c, hc, rfl⟩
    simp only [mdLine, List.mem_cons] at hxp
    rcases hxp with rfl | rfl | rfl | h0
    · left; rfl
    · right; left; rfl
    · right; right; right; exact hc
    · cases h0

theorem mdListInput_beq_false {items : List Char}
    (h2 : ∀ c ∈ items, isLowerB c = true) {d : Char}
    (hd : isLowerB d = false) (h3 : ¬('-' = d)) (h4 : ¬(' ' = d))
    (h5 : ¬('\n' = d)) :
    ∀ x ∈ mdListInput items, (x == d) = false := by
  intro x hx
  rcases mem_mdListInput hx with rfl | rfl | rfl | hxi
  · exact beq_eq_false_iff_ne.mpr h3
  · exact beq_eq_false_iff_ne.mpr h4
  · exact beq_eq_false_iff_ne.mpr h5
  · exact lower_beq_false (h2 x hxi) hd

/-! ### The list-wrapping pass on the structured input -/

theorem closeSafe_single {c : Char} (hc : isLowerB c = true) :
    closeSafe [c] = true := by
  have h1 : ('<' == c) = false := lower_beq_false_rev hc (by decide)
  have h2 : (c == '\n') = false := lower_beq_false hc (by decide)
  simp [closeSafe, show agreeMin liClose [c] = (('<' == c) && true) from rfl,
    h1, h2]

theorem liBlock_length (c : Char) : (liBlock c).length = 126 := by
  simp [liBlock, List.length_append, show liOpen.length = 120 from by decide,
    show liClose.length = 5 from by decide]

theorem ulBody_cons_eq (c c2 : Char) (rest2 : List Char) :
    ulBody (c :: c2 :: rest2) = liBlock c ++ ('\n' :: ulBody (c2 :: rest2)) :=
  rfl

theorem ulBody_cons_shape (d : Char) (r : List Char) :
    ∃ xs, ulBody (d :: r) = '<' :: xs := by
  cases r with
  | nil => exact ⟨_, rfl⟩
  | cons d2 r2 => exact ⟨_, rfl⟩

theorem ulBody_countWhile_space (d : Char) (r : List Char) :
    countWhile isSpaceChar (ulBody (d :: r)) = 0 := by
  cases r with
  | nil => rfl
  | cons d2 r2 => rfl

/-- The single-block step of the `(<li.*?<\/li>\s*)+` chain: a `<li>` block
produced by the list-item rule is consumed whole, its trailing whitespace is
absorbed, and the chain continues on what is left. -/
theorem ulChainS_liBlock (c : Char) (hc : isLowerB c = true) (t : List Char) :
    ulChainS (liBlock c ++ t) 0 =
      match ulChainS (t.drop (countWhile isSpaceChar t)) 0 with
      | some m2 => some (126 + countWhile isSpaceChar t + m2)
      | none => some (126 + countWhile isSpaceChar t) := by
  have hsafe : closeSafe (liOpen.drop 3 ++ [c]) = true :=
    closeSafe_append (by decide) (closeSafe_single hc)
  have h117 : (liOpen.drop 3).length = 117 := by decide
  have hlen : (liOpen.drop 3 ++ [c]).length = 118 := by
    simp [List.length_append, h117]
  have hfind : findClose ((liOpen.drop 1 ++ (c :: (liClose ++ t))).drop 2)
      = some 118 := by
    rw [show (liOpen.drop 1 ++ (c :: (liClose ++ t))).drop 2
        = (liOpen.drop 3 ++ [c]) ++ (liClose ++ t) from rfl]
    rw [findClose_append (liOpen.drop 3 ++ [c]) hsafe t, hlen]
  have h1 : ulChainS (liBlock c ++ t) 0
      = match findClose ((liOpen.drop 1 ++ (c :: (liClose ++ t))).drop 2) with
        | some k =>
          match ulChainS (liOpen.drop 1 ++ (c :: (liClose ++ t)))
              (3 + k + 5 - 1 + countWhile isSpaceChar
                ((liOpen.drop 1 ++ (c :: (liClose ++ t))).drop (3 + k + 5 - 1))) with
          | some m2 => some (3 + k + 5 + countWhile isSpaceChar
              ((liOpen.drop 1 ++ (c :: (liClose ++ t))).drop (3 + k + 5 - 1)) + m2)
          | none => some (3 + k + 5 + countWhile isSpaceChar
              ((liOpen.drop 1 ++ (c :: (liClose ++ t))).drop (3 + k + 5 - 1)))
        | none => none := rfl
  rw [h1, hfind]
  show (match ulChainS (liOpen.drop 1 ++ (c :: (liClose ++ t)))
      (125 + countWhile isSpaceChar t) with
    | some m2 => some (126 + countWhile isSpaceChar t + m2)
    | none => some (126 + countWhile isSpaceChar t)) = _
  rw [ulChainS_skip]
  rw [show (liOpen.drop 1 ++ (c :: (liClose ++ t))).drop
        (125 + countWhile isSpaceChar t)
      = t.drop (countWhile isSpaceChar t) by
    rw [← List.drop_drop]
    rw [show (liOpen.drop 1 ++ (c :: (liClose ++ t))).drop 125 = t from rfl]]

/-- The whole chain consumes `ulBody items` exactly. -/
theorem ulChainS_ulBody : ∀ (items : List Char), items ≠ [] →
    (∀ c ∈ items, isLowerB c = true) →
    ulChainS (ulBody items) 0 = some (ulBody items).length := by
  intro items
  induction items with
  | nil => intro h _; exact absurd rfl h
  | cons c rest ih =>
    intro _ h2
    have hc : isLowerB c = true := h2 c (List.mem_cons_self c rest)
    cases rest with
    | nil =>
      have h := ulChainS_liBlock c hc []
      have h' : ulChainS (liBlock c ++ []) 0 = some 126 := by
        rw [h]; rfl
      rw [List.append_nil] at h'
      rw [show ulBody [c] = liBlock c from rfl, h', liBlock_length c]
    | cons c2 rest2 =>
      have h := ulChainS_liBlock c hc ('\n' :: ulBody (c2 :: rest2))
      have hsp : countWhile isSpaceChar ('\n' :: ulBody (c2 :: rest2)) = 1 := by
        rw [show countWhile isSpaceChar ('\n' :: ulBody (c2 :: rest2))
            = countWhile isSpaceChar (ulBody (c2 :: rest2)) + 1 from rfl]
        rw [ulBody_countWhile_space]
      rw [hsp] at h
      rw [show ('\n' :: ulBody (c2 :: rest2)).drop 1 = ulBody (c2 :: rest2)
        from rfl] at h
      rw [ih (by simp) (fun x hx => h2 x (List.mem_cons_of_mem c hx))] at h
      rw [ulBody_cons_eq, h]
      have hL : (liBlock c ++ ('\n' :: ulBody (c2 :: rest2))).length
          = 126 + 1 + (ulBody (c2 :: rest2)).length := by
        simp [List.length_append, liBlock_length]
        omega
      rw [hL]

theorem applyPass_tryUl (items : List Char) (h1 : items ≠ [])
    (h2 : ∀ c ∈ items, isLowerB c = true) :
    applyPass tryUl (ulBody items) = ulOpen ++ ulBody items ++ ulClose := by
  have hchain := ulChainS_ulBody items h1 h2
  have htry : tryUl (ulBody items)
      = some (ulOpen ++ ulBody items ++ ulClose, (ulBody items).length) := by
    simp [tryUl, hchain, List.take_length]
  have hne : ulBody items ≠ [] := by
    cases items with
    | nil => exact absurd rfl h1
    | cons d r =>
      obtain ⟨xs, hxs⟩ := ulBody_cons_shape d r
      rw [hxs]; simp
  exact applyPass_full_match tryUl _ _ htry hne

theorem liBlock_no_nl {c : Char} (hc : isLowerB c = true) :
    ∀ x ∈ liBlock c, (x == '\n') = false := by
  intro x hx
  simp only [liBlock] at hx
  rcases List.mem_append.mp hx with h | h
  · exact (by decide : ∀ y ∈ liOpen, (y == '\n') = false) x h
  · rcases List.mem_cons.mp h with rfl | h5
    · exact lower_beq_false hc (by decide)
    · exact (by decide : ∀ y ∈ liClose, (y == '\n') = false) x h5

theorem para_step (c2 : Char) (rest2 : List Char) :
    tryPara ('\n' :: (ulBody (c2 :: rest2) ++ ulClose)) = none := by
  obtain ⟨xs, hxs⟩ := ulBody_cons_shape c2 rest2
  rw [hxs]
  rw [show ((('<' :: xs) ++ ulClose) : List Char) = '<' :: (xs ++ ulClose)
    from rfl]
  simp [tryPara, startsWithL, show (('\n' : Char) == '<') = false from by decide]

theorem para_pass_T : ∀ (items : List Char), items ≠ [] →
    (∀ c ∈ items, isLowerB c = true) →
    replaceScanS tryPara (ulBody items ++ ulClose) 0
      = ulBody items ++ ulClose := by
  intro items
  induction items with
  | nil => intro h _; exact absurd rfl h
  | cons c rest ih =>
    intro _ h2
    have hc := h2 c (List.mem_cons_self c rest)
    cases rest with
    | nil =>
      refine applyPass_id tryPara (fun x => x == '\n')
        (fun a as ha => tryPara_none ha) _ ?_
      intro x hx
      rcases List.mem_append.mp hx with h | h
      · refine liBlock_no_nl hc x ?_
        rw [show ulBody [c] = liBlock c from rfl] at h
        exact h
      · exact (by decide : ∀ y ∈ ulClose, (y == '\n') = false) x h
    | cons c2 rest2 =>
      rw [ulBody_cons_eq]
      rw [show ((liBlock c ++ ('\n' :: ulBody (c2 :: rest2))) ++ ulClose)
          = liBlock c ++ ('\n' :: (ulBody (c2 :: rest2) ++ ulClose)) by
        simp [List.append_assoc]]
      rw [replaceScanS_append tryPara (fun x => x == '\n')
        (fun a as ha => tryPara_none ha) (liBlock c) _ (liBlock_no_nl hc)]
      rw [show replaceScanS tryPara ('\n' :: (ulBody (c2 :: rest2) ++ ulClose)) 0
          = '\n' :: replaceScanS tryPara (ulBody (c2 :: rest2) ++ ulClose) 0 by
        simp only [replaceScanS, para_step c2 rest2]]
      rw [ih (by simp) (fun x hx => h2 x (List.mem_cons_of_mem c hx))]

theorem br_pass_T : ∀ (items : List Char), items ≠ [] →
    (∀ c ∈ items, isLowerB c = true) →
    replaceScanS tryBr (ulBody items ++ ulClose) 0
      = joinBr (items.map liBlock) ++ ulClose := by
  intro items
  induction items with
  | nil => intro h _; exact absurd rfl h
  | cons c rest ih =>
    intro _ h2
    have hc := h2 c (List.mem_cons_self c rest)
    cases rest with
    | nil =>
      rw [show joinBr ([c].map liBlock) = liBlock c from rfl]
      refine applyPass_id tryBr (fun x => x == '\n')
        (fun a as ha => tryBr_none ha) _ ?_
      intro x hx
      rcases List.mem_append.mp hx with h | h
      · refine liBlock_no_nl hc x ?_
        rw [show ulBody [c] = liBlock c from rfl] at h
        exact h
      · exact (by decide : ∀ y ∈ ulClose, (y == '\n') = false) x h
    | cons c2 rest2 =>
      rw [ulBody_cons_eq]
      rw [show ((liBlock c ++ ('\n' :: ulBody (c2 :: rest2))) ++ ulClose)
          = liBlock c ++ ('\n' :: (ulBody (c2 :: rest2) ++ ulClose)) by
        simp [List.append_assoc]]
      rw [replaceScanS_append tryBr (fun x => x == '\n')
        (fun a as ha => tryBr_none ha) (liBlock c) _ (liBlock_no_nl hc)]
      have hstep : tryBr ('\n' :: (ulBody (c2 :: rest2) ++ ulClose))
          = some ("<br>".data, 1) := by
        simp [tryBr, startsWithL]
      rw [show replaceScanS tryBr ('\n' :: (ulBody (c2 :: rest2) ++ ulClose)) 0
          = "<br>".data ++ replaceScanS tryBr (ulBody (c2 :: rest2) ++ ulClose) 0 by
        simp [replaceScanS, hstep]]
      rw [ih (by simp) (fun x hx => h2 x (List.mem_cons_of_mem c hx))]
      rw [show joinBr ((c :: c2 :: rest2).map liBlock)
          = liBlock c ++ "<br>".data ++ joinBr ((c2 :: rest2).map liBlock)
        from rfl]
      simp [List.append_assoc]

/-! ### The line-based passes on the structured input -/

theorem mapLines_fix (f : List Char → List Char) (items : List Char)
    (h1 : items ≠ []) (h2 : ∀ c ∈ items, isLowerB c = true)
    (hf : ∀ c ∈ items, f (mdLine c) = mdLine c) :
    mapLines f (mdListInput items) = mdListInput items := by
  have hnl : ∀ x ∈ items.map mdLine, ∀ c' ∈ x, c' ≠ '\n' := by
    intro x hx c' hc'
    rcases List.mem_map.mp hx with ⟨d, hd, rfl⟩
    simp only [mdLine, List.mem_cons] at hc'
    rcases hc' with rfl | rfl | rfl | h0
    · decide
    · decide
    · exact lower_ne (h2 _ hd) (by decide)
    · cases h0
  have hmapne : items.map mdLine ≠ [] := by
    cases items with
    | nil => exact absurd rfl h1
    | cons _ _ => simp
  unfold mapLines mdListInput
  rw [splitNl_joinNl (items.map mdLine) hmapne hnl]
  congr 1
  rw [List.map_map]
  exact List.map_congr_left (fun d hd => hf d hd)

theorem liPass_eq (items : List Char) (h1 : items ≠ [])
    (h2 : ∀ c ∈ items, isLowerB c = true) :
    mapLines liLine (mdListInput items) = ulBody items := by
  have hnl : ∀ x ∈ items.map mdLine, ∀ c' ∈ x, c' ≠ '\n' := by
    intro x hx c' hc'
    rcases List.mem_map.mp hx with ⟨d, hd, rfl⟩
    simp only [mdLine, List.mem_cons] at hc'
    rcases hc' with rfl | rfl | rfl | h0
    · decide
    · decide
    · exact lower_ne (h2 _ hd) (by decide)
    · cases h0
  have hmapne : items.map mdLine ≠ [] := by
    cases items with
    | nil => exact absurd rfl h1
    | cons _ _ => simp
  unfold mapLines mdListInput ulBody
  rw [splitNl_joinNl (items.map mdLine) hmapne hnl]
  congr 1
  rw [List.map_map]
  exact List.map_congr_left (fun d _ => (rfl : liLine (mdLine d) = liBlock d))

/-- The whole parser on the structured list input: a single `<ul>` wrapper
around the `<li>` blocks, which end up separated by `<br>`. -/
theorem parse_mdListInput (items : List Char) (h1 : items ≠ [])
    (h2 : ∀ c ∈ items, isLowerB c = true) :
    parseMarkdown (String.mk (mdListInput items))
      = String.mk (ulOpen ++ joinBr (items.map liBlock) ++ ulClose) := by
  have hstar : ∀ x ∈ mdListInput items, (x == '*') = false :=
    mdListInput_beq_false h2 (by decide) (by decide) (by decide) (by decide)
  have hbold : applyPass tryBold (mdListInput items) = mdListInput items :=
    applyPass_id _ _ (fun a as ha => tryBold_none ha) _ hstar
  have hital : italicScanS none (mdListInput items) 0 = mdListInput items :=
    italicScanS_id _ none hstar
  have hcode : applyPass tryCode (mdListInput items) = mdListInput items :=
    applyPass_id _ _ (fun a as ha => tryCode_none ha) _
      (mdListInput_beq_false h2 (by decide) (by decide) (by decide) (by decide))
  have hh3 : mapLines h3Line (mdListInput items) = mdListInput items :=
    mapLines_fix _ items h1 h2 (fun c _ => rfl)
  have hh2 : mapLines h2Line (mdListInput items) = mdListInput items :=
    mapLines_fix _ items h1 h2 (fun c _ => rfl)
  have hh1 : mapLines h1Line (mdListInput items) = mdListInput items :=
    mapLines_fix _ items h1 h2 (fun c _ => rfl)
  have hlink : applyPass tryLink (mdListInput items) = mdListInput items :=
    applyPass_id _ _ (fun a as ha => tryLink_none ha) _
      (mdListInput_beq_false h2 (by decide) (by decide) (by decide) (by decide))
  have hli : mapLines liLine (mdListInput items) = ulBody items :=
    liPass_eq items h1 h2
  have hul : applyPass tryUl (ulBody items) = ulOpen ++ ulBody items ++ ulClose :=
    applyPass_tryUl items h1 h2
  have hpara : applyPass tryPara (ulOpen ++ ulBody items ++ ulClose)
      = ulOpen ++ ulBody items ++ ulClose := by
    rw [List.append_assoc]
    rw [show applyPass tryPara (ulOpen ++ (ulBody items ++ ulClose))
        = replaceScanS tryPara (ulOpen ++ (ulBody items ++ ulClose)) 0 from rfl]
    rw [replaceScanS_append tryPara (fun x => x == '\n')
      (fun a as ha => tryPara_none ha) ulOpen _ (by decide)]
    rw [para_pass_T items h1 h2]
  have hbr : applyPass tryBr (ulOpen ++ ulBody items ++ ulClose)
      = ulOpen ++ joinBr (items.map liBlock) ++ ulClose := by
    rw [List.append_assoc]
    rw [show applyPass tryBr (ulOpen ++ (ulBody items ++ ulClose))
        = replaceScanS tryBr (ulOpen ++ (ulBody items ++ ulClose)) 0 from rfl]
    rw [replaceScanS_append tryBr (fun x => x == '\n')
      (fun a as ha => tryBr_none ha) ulOpen _ (by decide)]
    rw [br_pass_T items h1 h2, List.append_assoc]
  have hwrap : wrapP (ulOpen ++ joinBr (items.map liBlock) ++ ulClose)
      = ulOpen ++ joinBr (items.map liBlock) ++ ulClose := by
    rw [List.append_assoc]
    have hsw : startsWithL "<ul".data
        (ulOpen ++ (joinBr (items.map liBlock) ++ ulClose)) = true := rfl
    have hswh : startsWithL "<h".data
        (ulOpen ++ (joinBr (items.map liBlock) ++ ulClose)) = false := rfl
    simp [wrapP, hsw, hswh]
  simp only [parseMarkdown]
  rw [hbold, hital, hcode, hh3, hh2, hh1, hlink, hli, hul, hpara, hbr, hwrap]

/-- C1: the claim states that for every input the output of `sanitizeHTML`
contains no executable script vector, in particular no `<script>...</script>`
block.  The code violates this: on `splitScriptInput` the sanitizer outputs a
complete, intact `<script>alert(1)</script>` element, because the final
allow-list pass removes the `<b>` markers in a single pass and never rescans
the string it has produced. -/
theorem claim1_sanitizer_script_vector_bug :
    sanitizeHTML splitScriptInput = "<script>alert(1)</script>" ∧
    containsSub "<script>".data splitScriptInput.data = false ∧
    containsSub "<script>".data (sanitizeHTML splitScriptInput).data = true := by
  refine ⟨by decide, by decide, by decide⟩

/-- C2: the claim states `sanitizeHTML` is idempotent.  It is not: on
`splitScriptInput` one application yields `<script>alert(1)</script>`, and a
second application removes that block entirely, so the two results differ. -/
theorem claim2_sanitize_not_idempotent :
    sanitizeHTML (sanitizeHTML splitScriptInput) ≠ sanitizeHTML splitScriptInput ∧
    sanitizeHTML (sanitizeHTML splitScriptInput) = "" := by
  refine ⟨by decide, by decide⟩

/-- C3: the claim states every tag name in the sanitizer's output belongs to
the allow-list.  The code violates this: the output on `splitScriptInput`
contains the opening tag `<script>` (and the closing `</script>`), and
`script` is not on the allow-list. -/
theorem claim3_allowlist_closure_bug :
    countSub "<script>".data (sanitizeHTML splitScriptInput).data = 1 ∧
    countSub "</script>".data (sanitizeHTML splitScriptInput).data = 1 ∧
    allowedL.contains "script".data = false := by
  refine ⟨by decide, by decide, by decide⟩

/-- C4: sanitizing the parse of `[click](javascript:alert(1))` yields an
anchor whose `href` attribute is `#`; the `javascript:` URI is gone. -/
theorem claim4_link_safety :
    sanitizeHTML (parseMarkdown "[click](javascript:alert(1))")
      = "<p class=\"text-muted-foreground mb-4\"><a href=\"#\" class=\"text-primary hover:text-primary/80 underline transition-colors\" target=\"_blank\" rel=\"noopener noreferrer\">click</a>)</p>" ∧
    containsSub "<a href=\"#\"".data
      (sanitizeHTML (parseMarkdown "[click](javascript:alert(1))")).data = true ∧
    containsSub "javascript:".data
      (sanitizeHTML (parseMarkdown "[click](javascript:alert(1))")).data = false := by
  refine ⟨by decide, by decide, by decide⟩

/-- C5: the end-to-end scenario.  The pipeline output contains an `<h1>`
element with text `Title` and a `<strong>` element with text `bold`, and
contains neither the substring `<script>` nor `alert(1)` anywhere (hence in
particular not inside an executable tag). -/
theorem claim5_end_to_end :
    containsSub "<h1 ".data
      (sanitizeHTML (parseMarkdown "# Title\n\nSome **bold** text with a <script>alert(1)</script> payload.")).data = true ∧
    containsSub ">Title</h1>".data
      (sanitizeHTML (parseMarkdown "# Title\n\nSome **bold** text with a <script>alert(1)</script> payload.")).data = true ∧
    containsSub "<strong ".data
      (sanitizeHTML (parseMarkdown "# Title\n\nSome **bold** text with a <script>alert(1)</script> payload.")).data = true ∧
    containsSub ">bold</strong>".data
      (sanitizeHTML (parseMarkdown "# Title\n\nSome **bold** text with a <script>alert(1)</script> payload.")).data = true ∧
    containsSub "<script>".data
      (sanitizeHTML (parseMarkdown "# Title\n\nSome **bold** text with a <script>alert(1)</script> payload.")).data = false ∧
    containsSub "alert(1)".data
      (sanitizeHTML (parseMarkdown "# Title\n\nSome **bold** text with a <script>alert(1)</script> payload.")).data = false := by
  refine ⟨by decide, by decide, by decide, by decide, by decide, by decide⟩

/-- C7: bold/italic precedence.  The bold pass (which runs first) consumes
the `**` pairs; the italic pass then rewrites `*italic*`; the final output
has a `<strong>` around `bold`, an `<em>` around `italic` and no asterisk
left; and the italic rule refuses a `*` adjacent to another `*`, so `**x**`
is left untouched by the italic pass alone. -/
theorem claim7_bold_italic_precedence :
    applyPass tryBold "**bold** and *italic*".data
      = strongOpen ++ "bold".data ++ strongClose ++ " and *italic*".data ∧
    parseMarkdown "**bold** and *italic*"
      = "<p class=\"text-muted-foreground mb-4\"><strong class=\"font-bold text-foreground\">bold</strong> and <em class=\"italic text-muted-foreground\">italic</em></p>" ∧
    containsSub "*".data (parseMarkdown "**bold** and *italic*").data = false ∧
    italicScanS none "**x**".data 0 = "**x**".data := by
  refine ⟨by decide, by decide, by decide, by decide⟩

/-- C8: totality.  Both functions are total Lean functions defined by
structural recursion on their input, so they return a string on every input;
the empty string yields an empty paragraph wrapper, and malformed markdown
passes through as literal text wrapped in a paragraph. -/
theorem claim8_totality :
    (∀ s : String, ∃ t : String, parseMarkdown s = t) ∧
    (∀ s : String, ∃ t : String, sanitizeHTML s = t) ∧
    parseMarkdown "" = "<p class=\"text-muted-foreground mb-4\"></p>" ∧
    sanitizeHTML "" = "" ∧
    parseMarkdown "]][[ (( ** unclosed"
      = "<p class=\"text-muted-foreground mb-4\">]][[ (( ** unclosed</p>" := by
  refine ⟨fun s => ⟨parseMarkdown s, rfl⟩, fun s => ⟨sanitizeHTML s, rfl⟩,
    by decide, by decide, by decide⟩

/-- C9: the event-handler stripping is not scoped to tags.  The plain text
`log once=true` contains no `<` at all, yet the bare-value handler pass
deletes ` once=true`, so the sanitizer changes the string. -/
theorem claim9_event_stripping_plain_text :
    sanitizeHTML "log once=true" = "log" ∧
    containsSub "<".data "log once=true".data = false ∧
    sanitizeHTML "log once=true" ≠ "log once=true" := by
  refine ⟨by decide, by decide, by decide⟩

/-- C10: an opening `<script>` with no closing tag is not removed as a block
(the block regex requires a closing `</script>`); only the tag marker is
deleted by the allow-list pass, and the script body survives as text. -/
theorem claim10_unclosed_script_unwrap :
    sanitizeHTML "<script>alert(1)" = "alert(1)" := by decide

/-- C6: list grouping.  For every nonempty run of list-item lines
`- c1\n...\n- ck` (single lower-case letter items), the parser wraps the
whole run in exactly one `<ul>` element: the output is literally the `<ul>`
opening tag, the `k` `<li>` blocks separated by `<br>`, and one `</ul>`.
Concretely, `parse("- a\n- b\n- c")` contains exactly one `<ul>`, one
`</ul>` and three `<li>`, while two runs separated by the non-list line `x`
(`"- a\nx\n- b"`) receive two separate `<ul>` wrappers. -/
theorem claim6_list_grouping (items : List Char) (h1 : items ≠ [])
    (h2 : ∀ c ∈ items, isLowerB c = true) :
    parseMarkdown (String.mk (mdListInput items))
      = String.mk (ulOpen ++ joinBr (items.map liBlock) ++ ulClose) ∧
    countSub "<ul".data (parseMarkdown "- a\n- b\n- c").data = 1 ∧
    countSub "<li".data (parseMarkdown "- a\n- b\n- c").data = 3 ∧
    countSub "</ul>".data (parseMarkdown "- a\n- b\n- c").data = 1 ∧
    countSub "<ul".data (parseMarkdown "- a\nx\n- b").data = 2 :=
  ⟨parse_mdListInput items h1 h2, by decide, by decide, by decide, by decide⟩

theorem claim6_list_grouping_witness :
    (['a', 'b', 'c'] : List Char) ≠ [] ∧
    (∀ c ∈ (['a', 'b', 'c'] : List Char), isLowerB c = true) ∧
    (parseMarkdown (String.mk (mdListInput ['a', 'b', 'c']))
        = String.mk (ulOpen ++ joinBr (['a', 'b', 'c'].map liBlock) ++ ulClose) ∧
      countSub "<ul".data (parseMarkdown "- a\n- b\n- c").data = 1 ∧
      countSub "<li".data (parseMarkdown "- a\n- b\n- c").data = 3 ∧
      countSub "</ul>".data (parseMarkdown "- a\n- b\n- c").data = 1 ∧
      countSub "<ul".data (parseMarkdown "- a\nx\n- b").data = 2) :=
  ⟨by decide, by decide,
    claim6_list_grouping ['a', 'b', 'c'] (by decide) (by decide)⟩

end ChainPulse
